import Mathlib

/-!
# Verification of the Monte Carlo pi notebook
  (`src/Examples/Use_GPUs_with_Apache_Beam.ipynb`)

Shallow embedding of the Python code of the notebook.  Conventions:

* Python `float` values produced by the random generators are modelled as
  rationals (`ℚ`); the geometric test `x * x + y * y < 1.0` is the exact
  comparison on those rationals.
* The global `random.random()` stream consumed by the CPU functions is
  abstracted as a function `draws : ℕ → ℚ` giving the successive values the
  generator returns after the call starts; iteration `i` of the loop consumes
  `draws (2 * i)` (bound to `x`) and `draws (2 * i + 1)` (bound to `y`).
* The numba library call `create_xoroshiro128p_states(n, seed)` together with
  `xoroshiro128p_uniform_float32(rng_states, pos)` is external library code
  (not part of this repository); it is abstracted as a pure collaborator
  `rng : ℕ → ℕ → ℕ → ℚ`, where `rng seed pos j` is the `j`-th uniform value
  drawn by GPU thread `pos` from the states created with the given seed.
* Python true division `/` raises `ZeroDivisionError` on a zero divisor; it is
  modelled by `pyTrueDiv` returning `Except`.  Floor division `//` on a zero
  divisor likewise raises, modelled by `pyFloorDiv`.
* Counts are natural numbers.  The notebook stores per-thread counts in a
  `float32` array; the counts are integers, so the array is modelled as a
  function `ℕ → ℕ`, and the GPU kernel writing `acc[pos] = sub_acc` becomes a
  `Function.update`.  The kernel's threads write to pairwise distinct cells;
  a run of the kernel is modelled by folding the per-thread write over an
  arbitrary `schedule : List ℕ` of thread positions, so that order
  independence across execution units can be stated and proved.
-/

/-- Errors raised by the embedded Python fragments. -/
inductive PyError where
  | zeroDivisionError
  deriving DecidableEq, Repr

/-- Python true division `a / b`: raises `ZeroDivisionError` when `b = 0`. -/
def pyTrueDiv (a b : ℚ) : Except PyError ℚ :=
  if b = 0 then .error .zeroDivisionError else .ok (a / b)

/-- Python floor division `a // b` on non-negative integers: raises
`ZeroDivisionError` when `b = 0`. -/
def pyFloorDiv (a b : ℕ) : Except PyError ℕ :=
  if b = 0 then .error .zeroDivisionError else .ok (a / b)

/-- The accumulator loop of `python_cpu_monte_carlo_pi`:
`for i in range(sample_size): x = random.random(); y = random.random();`
`if (x * x + y * y) < 1.0: acc += 1`.  Iteration `i` consumes stream
positions `2 * i` and `2 * i + 1`. -/
def pythonCpuAcc (draws : ℕ → ℚ) : ℕ → ℕ
  | 0 => 0
  | i + 1 =>
    pythonCpuAcc draws i +
      (if draws (2 * i) * draws (2 * i) +
          draws (2 * i + 1) * draws (2 * i + 1) < 1 then 1 else 0)

/-- `python_cpu_monte_carlo_pi(sample_size)`: runs the sampling loop and
returns `4.0 * acc / sample_size`. -/
def python_cpu_monte_carlo_pi (draws : ℕ → ℚ) (sample_size : ℕ) :
    Except PyError ℚ :=
  pyTrueDiv (4 * (pythonCpuAcc draws sample_size : ℚ)) (sample_size : ℚ)

/-- The accumulator loop of `machine_code_cpu_monte_carlo_pi`; the Python
body is textually identical to the one of `python_cpu_monte_carlo_pi`,
only the `@jit(nopython=True)` annotation differs. -/
def machineCodeCpuAcc (draws : ℕ → ℚ) : ℕ → ℕ
  | 0 => 0
  | i + 1 =>
    machineCodeCpuAcc draws i +
      (if draws (2 * i) * draws (2 * i) +
          draws (2 * i + 1) * draws (2 * i + 1) < 1 then 1 else 0)

/-- `machine_code_cpu_monte_carlo_pi(sample_size)`: same body as
`python_cpu_monte_carlo_pi`, compiled by numba. -/
def machine_code_cpu_monte_carlo_pi (draws : ℕ → ℚ) (sample_size : ℕ) :
    Except PyError ℚ :=
  pyTrueDiv (4 * (machineCodeCpuAcc draws sample_size : ℚ)) (sample_size : ℚ)

/-- The per-thread loop inside the CUDA kernel `gpu_monte_carlo_pi_sampler`:
`sub_acc = 0; for i in range(sub_sample_size): x = ...; y = ...;`
`if (x * x + y * y) < 1.0: sub_acc += 1`.  `threadDraws j` is the `j`-th
value thread `pos` obtains from `xoroshiro128p_uniform_float32`. -/
def gpuThreadSubAcc (threadDraws : ℕ → ℚ) : ℕ → ℕ
  | 0 => 0
  | i + 1 =>
    gpuThreadSubAcc threadDraws i +
      (if threadDraws (2 * i) * threadDraws (2 * i) +
          threadDraws (2 * i + 1) * threadDraws (2 * i + 1) < 1 then 1 else 0)

/-- The CUDA kernel `gpu_monte_carlo_pi_sampler(rng_states, sub_sample_size,
acc)`.  Each thread `pos` checks `pos < acc.size`, runs its sampling loop and
writes `acc[pos] = sub_acc`.  `rng_states pos` is the uniform stream of thread
`pos`; `accSize` is `acc.size`; `schedule` is the order in which the hardware
happens to execute the thread positions (each cell is written by its own
thread only, so any schedule covering all positions gives the same array). -/
def gpu_monte_carlo_pi_sampler (rng_states : ℕ → ℕ → ℚ)
    (sub_sample_size : ℕ) (acc : ℕ → ℕ) (accSize : ℕ) (schedule : List ℕ) :
    ℕ → ℕ :=
  schedule.foldl
    (fun a pos =>
      if pos < accSize then
        Function.update a pos (gpuThreadSubAcc (rng_states pos) sub_sample_size)
      else a)
    acc

/-- `calculate_pi(acc, sample_size)`: `4 * np.sum(acc) / sample_size`
(the `acc` array holds integer counts). -/
def calculate_pi (acc : List ℕ) (sample_size : ℕ) : Except PyError ℚ :=
  pyTrueDiv (4 * (acc.sum : ℚ)) (sample_size : ℚ)

/-- `Sampler.process(element)` of the Beam `DoFn`: unpacks
`(rng_seed, sample_size_per_sampler)`, builds a fresh zero array of
`64 * 24` cells, creates per-thread rng states from `rng_seed`, computes
`sub_sample_size_per_thread = sample_size_per_sampler // (64 * 24)` (the
divisor is the constant `1536`, never zero), launches the kernel and yields
the resulting array, read out as the list of its `64 * 24` cells.
`rng seed` abstracts `create_xoroshiro128p_states(64 * 24, seed)` as the
per-thread uniform streams; `schedule` is the hardware execution order of
the kernel threads. -/
def Sampler.process (rng : ℕ → ℕ → ℕ → ℚ) (schedule : List ℕ)
    (element : ℕ × ℕ) : List ℕ :=
  let rng_seed := element.1
  let sample_size_per_sampler := element.2
  let threadsperblock_per_sampler := 64
  let blocks_per_sampler := 24
  let cells := threadsperblock_per_sampler * blocks_per_sampler
  let acc_per_sampler : ℕ → ℕ := fun _ => 0
  let sub_sample_size_per_thread := sample_size_per_sampler / cells
  let finalAcc :=
    gpu_monte_carlo_pi_sampler (rng rng_seed) sub_sample_size_per_thread
      acc_per_sampler cells schedule
  (List.range cells).map finalAcc

/-- `beam.Create([(i, sample_size_per_sampler) for i in range(sampler_count)])`:
the list of dispatched tasks, task `i` paired with its seed `i`. -/
def beamCreateTasks (sampler_count sample_size_per_sampler : ℕ) :
    List (ℕ × ℕ) :=
  (List.range sampler_count).map fun i => (i, sample_size_per_sampler)

/-- The partitioning step of the Beam section:
`sample_size_per_sampler = sample_size // sampler_count` followed by
`beam.Create([(i, sample_size_per_sampler) for i in range(sampler_count)])`. -/
def partitionTasks (sample_size sampler_count : ℕ) :
    Except PyError (List (ℕ × ℕ)) :=
  (pyFloorDiv sample_size sampler_count).map
    (beamCreateTasks sampler_count)

/-- The mapping function of `beam.Map(lambda x: np.sum(x).astype(int).item())`
producing `acc_per_sampler`: sums one sampler's per-thread counts. -/
def acc_per_sampler_sum (x : List ℕ) : ℕ := x.sum

/-- `sum_acc = acc_per_sampler | beam.CombineGlobally(sum)`: sums the
per-sampler counts, in whatever order they arrive. -/
def sum_acc (accs : List ℕ) : ℕ := accs.sum

/-- The mapping function of
`print_pi = sum_acc | beam.Map(lambda x: print(4 * x / sample_size))`:
the value printed for the aggregated count `x`. -/
def print_pi_value (x : ℕ) (sample_size : ℕ) : Except PyError ℚ :=
  pyTrueDiv (4 * (x : ℚ)) (sample_size : ℚ)

/-- The whole reduction chain after the samplers: per-sampler sums, global
sum, final formula. -/
def reduceAndPrint (samplerAccs : List (List ℕ)) (sample_size : ℕ) :
    Except PyError ℚ :=
  print_pi_value (sum_acc (samplerAccs.map acc_per_sampler_sum)) sample_size

/-! ## Helper lemmas -/

theorem pythonCpuAcc_eq_card (draws : ℕ → ℚ) (n : ℕ) :
    pythonCpuAcc draws n =
      ((Finset.range n).filter (fun i =>
        draws (2 * i) * draws (2 * i) +
          draws (2 * i + 1) * draws (2 * i + 1) < 1)).card := by
  induction n with
  | zero => simp [pythonCpuAcc]
  | succ k ih =>
    have hk : k ∉ (Finset.range k).filter (fun i =>
        draws (2 * i) * draws (2 * i) +
          draws (2 * i + 1) * draws (2 * i + 1) < 1) := by simp
    by_cases h : draws (2 * k) * draws (2 * k) +
        draws (2 * k + 1) * draws (2 * k + 1) < 1
    · simp only [pythonCpuAcc, ih, Finset.range_succ, Finset.filter_insert,
        h, if_true]
      rw [Finset.card_insert_of_not_mem hk]
    · simp [pythonCpuAcc, ih, Finset.range_succ, Finset.filter_insert, h]

theorem machineCodeCpuAcc_eq_pythonCpuAcc (draws : ℕ → ℚ) (n : ℕ) :
    machineCodeCpuAcc draws n = pythonCpuAcc draws n := by
  induction n with
  | zero => rfl
  | succ k ih => simp only [machineCodeCpuAcc, pythonCpuAcc, ih]

theorem gpuThreadSubAcc_eq_pythonCpuAcc (draws : ℕ → ℚ) (n : ℕ) :
    gpuThreadSubAcc draws n = pythonCpuAcc draws n := by
  induction n with
  | zero => rfl
  | succ k ih => simp only [gpuThreadSubAcc, pythonCpuAcc, ih]

theorem pythonCpuAcc_le (draws : ℕ → ℚ) (n : ℕ) : pythonCpuAcc draws n ≤ n := by
  rw [pythonCpuAcc_eq_card]
  calc ((Finset.range n).filter _).card
      ≤ (Finset.range n).card := Finset.card_filter_le _ _
    _ = n := Finset.card_range n

theorem gpuThreadSubAcc_le (draws : ℕ → ℚ) (n : ℕ) :
    gpuThreadSubAcc draws n ≤ n := by
  rw [gpuThreadSubAcc_eq_pythonCpuAcc]; exact pythonCpuAcc_le draws n

/-- Pointwise description of the array produced by the kernel: a cell `p`
holds its thread's count when `p` was scheduled and is in bounds, the old
value otherwise. -/
theorem gpu_sampler_apply (rng_states : ℕ → ℕ → ℚ) (sub : ℕ) (accSize : ℕ) :
    ∀ (schedule : List ℕ) (acc : ℕ → ℕ) (p : ℕ),
      gpu_monte_carlo_pi_sampler rng_states sub acc accSize schedule p =
        if p ∈ schedule ∧ p < accSize
        then gpuThreadSubAcc (rng_states p) sub else acc p := by
  intro schedule
  induction schedule with
  | nil => intro acc p; simp [gpu_monte_carlo_pi_sampler]
  | cons pos rest ih =>
    intro acc p
    by_cases hpos : pos < accSize
    · have step :
          gpu_monte_carlo_pi_sampler rng_states sub acc accSize (pos :: rest) =
            gpu_monte_carlo_pi_sampler rng_states sub
              (Function.update acc pos (gpuThreadSubAcc (rng_states pos) sub))
              accSize rest := by
        simp [gpu_monte_carlo_pi_sampler, hpos]
      rw [step, ih]
      by_cases hp : p < accSize
      · by_cases hmem : p ∈ rest
        · simp [hmem, hp, List.mem_cons]
        · by_cases hpp : p = pos
          · subst hpp
            simp [hmem, hp, Function.update_same]
          · simp [hmem, hp, hpp, Function.update_noteq hpp, List.mem_cons]
      · have hpp : p ≠ pos := by
          intro e; subst e; exact hp hpos
        simp [hp, Function.update_noteq hpp]
    · have step :
          gpu_monte_carlo_pi_sampler rng_states sub acc accSize (pos :: rest) =
            gpu_monte_carlo_pi_sampler rng_states sub acc accSize rest := by
        simp [gpu_monte_carlo_pi_sampler, hpos]
      rw [step, ih]
      by_cases hp : p < accSize
      · have hpp : p ≠ pos := by
          intro e; subst e; exact hpos hp
        simp [List.mem_cons, hpp, hp]
      · simp [hp]

theorem sampler_process_sum_le (rng : ℕ → ℕ → ℕ → ℚ) (schedule : List ℕ)
    (seed s : ℕ) :
    acc_per_sampler_sum (Sampler.process rng schedule (seed, s)) ≤ s := by
  have hcell : ∀ x ∈ Sampler.process rng schedule (seed, s),
      x ≤ s / (64 * 24) := by
    intro x hx
    simp only [Sampler.process, List.mem_map, List.mem_range] at hx
    obtain ⟨p, _, hp⟩ := hx
    rw [gpu_sampler_apply] at hp
    by_cases hc : p ∈ schedule ∧ p < 64 * 24
    · rw [if_pos hc] at hp
      exact hp ▸ gpuThreadSubAcc_le _ _
    · rw [if_neg hc] at hp
      omega
  have hlen : (Sampler.process rng schedule (seed, s)).length = 64 * 24 := by
    simp [Sampler.process]
  calc acc_per_sampler_sum (Sampler.process rng schedule (seed, s))
      ≤ (Sampler.process rng schedule (seed, s)).length • (s / (64 * 24)) :=
        List.sum_le_card_nsmul _ _ hcell
    _ = 64 * 24 * (s / (64 * 24)) := by rw [hlen, smul_eq_mul]
    _ = s / (64 * 24) * (64 * 24) := mul_comm _ _
    _ ≤ s := Nat.div_mul_le_self s (64 * 24)

/-! ## Claims -/

/-- C4: a sampler worker, given a task, performs exactly `sample_count`
iterations.  In each iteration `i` it draws the two independent uniform
values at stream positions `2 * i` and `2 * i + 1`, and increments a local
counter exactly when the sum of their squares is strictly below `1.0`; the
returned count is that counter's final value.  This holds both for the loop
of `python_cpu_monte_carlo_pi` and for the per-thread loop of the CUDA
kernel `gpu_monte_carlo_pi_sampler`: the returned count is exactly the
number of iteration indices `i < sample_count` whose pair of draws lands
strictly inside the circle. -/
theorem sampler_loop_counts_exactly_in_circle (draws : ℕ → ℚ) (n : ℕ) :
    pythonCpuAcc draws n =
      ((Finset.range n).filter (fun i =>
        draws (2 * i) * draws (2 * i) +
          draws (2 * i + 1) * draws (2 * i + 1) < 1)).card ∧
    gpuThreadSubAcc draws n =
      ((Finset.range n).filter (fun i =>
        draws (2 * i) * draws (2 * i) +
          draws (2 * i + 1) * draws (2 * i + 1) < 1)).card :=
  ⟨pythonCpuAcc_eq_card draws n,
   (gpuThreadSubAcc_eq_pythonCpuAcc draws n).trans (pythonCpuAcc_eq_card draws n)⟩

/-- C5: the aggregated `total_in_circle` is invariant under every permutation
of the order in which the partial per-sampler results arrive:
`beam.CombineGlobally(sum)` yields the same total on any reordering of the
same multiset of partial results. -/
theorem sum_acc_perm_invariant (l₁ l₂ : List ℕ) (h : l₁.Perm l₂) :
    sum_acc l₁ = sum_acc l₂ :=
  h.sum_eq

/-- Witness for C5 at a concrete permutation. -/
theorem sum_acc_perm_invariant_witness :
    ([3, 1, 4] : List ℕ).Perm [4, 3, 1] ∧
      sum_acc [3, 1, 4] = sum_acc [4, 3, 1] :=
  ⟨by decide, sum_acc_perm_invariant [3, 1, 4] [4, 3, 1] (by decide)⟩

/-- C6: for every task executed by a sampler worker the resulting
`in_circle_count` is a natural number (hence non-negative) and never exceeds
the task's `sample_count`: the loop of `python_cpu_monte_carlo_pi` counts at
most `sample_size` hits, and a Beam `Sampler` processing the task
`(seed, s)` yields per-thread counts whose aggregated sum is at most `s`,
whatever rng streams and hardware schedule the kernel runs under. -/
theorem in_circle_count_le_sample_count (draws : ℕ → ℚ) (n : ℕ)
    (rng : ℕ → ℕ → ℕ → ℚ) (schedule : List ℕ) (seed s : ℕ) :
    pythonCpuAcc draws n ≤ n ∧
      acc_per_sampler_sum (Sampler.process rng schedule (seed, s)) ≤ s :=
  ⟨pythonCpuAcc_le draws n, sampler_process_sum_le rng schedule seed s⟩

/-- C8: `beam.Create([(i, sample_size_per_sampler) for i in range(sampler_count)])`
gives the `i`-th task the seed `i`: the list of seeds is exactly
`range sampler_count`, a deterministic function of the task index, and its
entries are pairwise distinct. -/
theorem task_seeds_deterministic_and_distinct (sampler_count sz : ℕ) :
    (beamCreateTasks sampler_count sz).map Prod.fst = List.range sampler_count ∧
      ((beamCreateTasks sampler_count sz).map Prod.fst).Nodup := by
  have h : (beamCreateTasks sampler_count sz).map Prod.fst =
      List.range sampler_count := by
    simp [beamCreateTasks, List.map_map, Function.comp_def]
  exact ⟨h, h ▸ List.nodup_range sampler_count⟩

/-- C9: calling `python_cpu_monte_carlo_pi` with `sample_size = 0` performs
zero loop iterations (the accumulator stays `0`) and the final
`4.0 * acc / sample_size` divides by zero, so the call raises
`ZeroDivisionError` instead of returning an estimate. -/
theorem python_cpu_monte_carlo_pi_zero_raises (draws : ℕ → ℚ) :
    pythonCpuAcc draws 0 = 0 ∧
      python_cpu_monte_carlo_pi draws 0 = .error .zeroDivisionError := by
  refine ⟨rfl, ?_⟩
  simp [python_cpu_monte_carlo_pi, pyTrueDiv]

/-- C10: `python_cpu_monte_carlo_pi` and `machine_code_cpu_monte_carlo_pi`
have textually identical bodies (only the `@jit` annotation differs), so on
every sample size and every fixed sequence of random draws they return equal
results. -/
theorem native_eq_jitted (draws : ℕ → ℚ) (sample_size : ℕ) :
    python_cpu_monte_carlo_pi draws sample_size =
      machine_code_cpu_monte_carlo_pi draws sample_size := by
  simp [python_cpu_monte_carlo_pi, machine_code_cpu_monte_carlo_pi,
    machineCodeCpuAcc_eq_pythonCpuAcc]

/-- C1 fails on the code: partitioning 5 samples into 2 tasks assigns each
task `5 // 2 = 2` samples, so the per-task counts sum to `4`, not `5`; the
integer-division remainder is dropped, not assigned to the last task. -/
theorem partition_drops_remainder_counterexample :
    partitionTasks 5 2 = .ok [(0, 2), (1, 2)] ∧
      (([(0, 2), (1, 2)] : List (ℕ × ℕ)).map Prod.snd).sum ≠ 5 := by
  constructor
  · rfl
  · decide

/-- C1 amended: for `0 < task_count`, every task receives
`total_sample_size / task_count` samples, the per-task counts sum to
`task_count * (total_sample_size / task_count)`, and that sum equals
`total_sample_size` exactly when `task_count` divides `total_sample_size`;
otherwise the remainder is silently dropped. -/
theorem partition_sum_eq_mul_div (total n : ℕ) (h : 0 < n) :
    partitionTasks total n = .ok (beamCreateTasks n (total / n)) ∧
      ((beamCreateTasks n (total / n)).map Prod.snd).sum = n * (total / n) ∧
      (((beamCreateTasks n (total / n)).map Prod.snd).sum = total ↔ n ∣ total) := by
  have hok : partitionTasks total n = .ok (beamCreateTasks n (total / n)) := by
    simp [partitionTasks, pyFloorDiv, Nat.pos_iff_ne_zero.mp h, Except.map]
  have hsum : ((beamCreateTasks n (total / n)).map Prod.snd).sum =
      n * (total / n) := by
    simp [beamCreateTasks, List.map_map, Function.comp_def, List.map_const',
      List.sum_replicate, smul_eq_mul]
  refine ⟨hok, hsum, ?_⟩
  rw [hsum]
  constructor
  · intro he
    exact ⟨total / n, he.symm⟩
  · intro hd
    exact Nat.mul_div_cancel' hd

/-- Witness for the amended C1 at `total_sample_size = 5`, `task_count = 2`. -/
theorem partition_sum_eq_mul_div_witness :
    partitionTasks 5 2 = .ok (beamCreateTasks 2 (5 / 2)) ∧
      ((beamCreateTasks 2 (5 / 2)).map Prod.snd).sum = 2 * (5 / 2) ∧
      (((beamCreateTasks 2 (5 / 2)).map Prod.snd).sum = 5 ↔ 2 ∣ 5) :=
  partition_sum_eq_mul_div 5 2 (by decide)

/-- C2: once all partial in-circle counts are aggregated, the value handed
to the caller is exactly `4 * total_in_circle / total_samples`: the Beam
reduction chain (per-sampler `np.sum`, then `CombineGlobally(sum)`, then
`print(4 * x / sample_size)`) produces `4` times the sum of every per-thread
count divided by the total sample size, and `calculate_pi` of the plain GPU
section applies the same closed-form formula to its aggregated array. -/
theorem final_estimate_formula (samplerAccs : List (List ℕ))
    (acc : List ℕ) (sample_size : ℕ) (h : 0 < sample_size) :
    reduceAndPrint samplerAccs sample_size =
      .ok (4 * ((samplerAccs.flatten.sum : ℕ) : ℚ) / (sample_size : ℚ)) ∧
    calculate_pi acc sample_size =
      .ok (4 * ((acc.sum : ℕ) : ℚ) / (sample_size : ℚ)) := by
  have hns : ((sample_size : ℚ)) ≠ 0 := by
    exact_mod_cast h.ne'
  constructor
  · simp [reduceAndPrint, print_pi_value, sum_acc, acc_per_sampler_sum,
      pyTrueDiv, hns, List.sum_flatten, Function.comp_def]
  · simp [calculate_pi, pyTrueDiv, hns]

/-- Witness for C2 at concrete partial results. -/
theorem final_estimate_formula_witness :
    reduceAndPrint [[1, 2], [3]] 8 =
      .ok (4 * ((([[1, 2], [3]] : List (List ℕ)).flatten.sum : ℕ) : ℚ) / (8 : ℚ)) ∧
    calculate_pi [1, 2, 3] 8 =
      .ok (4 * ((([1, 2, 3] : List ℕ).sum : ℕ) : ℚ) / (8 : ℚ)) :=
  final_estimate_formula [[1, 2], [3]] [1, 2, 3] 8 (by decide)

/-- C3: a sampler worker is deterministic in its `(seed, sample_count)`
element: two invocations of `Sampler.process` on the same element, under the
same rng streams but any two hardware schedules that each execute every
kernel thread exactly once (parallel-lane or single-threaded order), return
the same list of per-thread counts, hence the same `in_circle_count`. -/
theorem sampler_process_deterministic (rng : ℕ → ℕ → ℕ → ℚ)
    (element : ℕ × ℕ) (sched₁ sched₂ : List ℕ)
    (h₁ : sched₁.Perm (List.range (64 * 24)))
    (h₂ : sched₂.Perm (List.range (64 * 24))) :
    Sampler.process rng sched₁ element = Sampler.process rng sched₂ element := by
  have key : ∀ (sched : List ℕ), sched.Perm (List.range (64 * 24)) →
      Sampler.process rng sched element =
        (List.range (64 * 24)).map (fun p =>
          gpuThreadSubAcc (rng element.1 p) (element.2 / (64 * 24))) := by
    intro sched hs
    simp only [Sampler.process]
    apply List.map_congr_left
    intro p hp
    rw [gpu_sampler_apply]
    have hmem : p ∈ sched := hs.mem_iff.mpr hp
    have hlt : p < 64 * 24 := List.mem_range.mp hp
    rw [if_pos ⟨hmem, hlt⟩]
  rw [key sched₁ h₁, key sched₂ h₂]

/-- Witness for C3: in-order execution and reversed execution of the kernel
threads give the same result on a concrete element. -/
theorem sampler_process_deterministic_witness :
    Sampler.process (fun _ _ _ => 0) (List.range (64 * 24)) (0, 10) =
      Sampler.process (fun _ _ _ => 0) ((List.range (64 * 24)).reverse) (0, 10) :=
  sampler_process_deterministic (fun _ _ _ => 0) (0, 10)
    (List.range (64 * 24)) ((List.range (64 * 24)).reverse)
    (List.Perm.refl _) ((List.range (64 * 24)).reverse_perm)

/-- C7 fails on the code: the partitioning performs no validation.  With
`task_count = 2 > 1 = total_sample_size` it succeeds and creates two tasks
of zero samples (no `InvalidConfiguration`), and with
`total_sample_size = 0` it likewise succeeds and creates tasks. -/
theorem partition_no_invalid_configuration_counterexample :
    partitionTasks 1 2 = .ok [(0, 0), (1, 0)] ∧
      partitionTasks 0 2 = .ok [(0, 0), (1, 0)] := by
  constructor <;> rfl

/-- C7 amended: the code validates nothing.  With `task_count = 0` the
partitioning raises `ZeroDivisionError` at the floor division (so no task is
created, but the error is `ZeroDivisionError`, not `InvalidConfiguration`);
with any `task_count > 0` — including `task_count > total_sample_size` and
`total_sample_size = 0` — it succeeds and creates `task_count` tasks of
`total_sample_size / task_count` samples each. -/
theorem partition_no_validation (total n : ℕ) :
    (n = 0 → partitionTasks total n = .error .zeroDivisionError) ∧
      (0 < n → partitionTasks total n = .ok (beamCreateTasks n (total / n))) := by
  constructor
  · intro h; subst h; rfl
  · intro h
    simp [partitionTasks, pyFloorDiv, Nat.pos_iff_ne_zero.mp h, Except.map]

/-- Witness for the amended C7 at `task_count = 0` and at
`task_count = 2 > 1 = total_sample_size`. -/
theorem partition_no_validation_witness :
    partitionTasks 7 0 = .error .zeroDivisionError ∧
      partitionTasks 1 2 = .ok (beamCreateTasks 2 (1 / 2)) :=
  ⟨(partition_no_validation 7 0).1 rfl, (partition_no_validation 1 2).2 (by decide)⟩
